import Mathlib

/-!
Verification development for the NochEinWort news pipeline.

The article store is a single table, modelled as a `List Article`. Time is
modelled with integers: datetime values (feedback times, the clock `now`)
are seconds, and date values (publication dates, the clock `today`) are day
ordinals; the whole-days difference of two datetimes is `Int.fdiv _ 86400`,
matching Python's `timedelta.days` (floor). ISO timestamp strings stored in
the table are represented by their parsed value: `none` stands for a missing
or empty (falsy) string, `some t` for a well-formed string parsing to `t`.
Scores are integer-valued in the source (sums of products and clamped
differences of whole numbers), so they are modelled as `Int`.
-/

/-- One row of the `deutsch` table. Field names follow the source columns;
defaults are the store defaults a discovery insert relies on (`status`
defaults to `new`, `active` to `true`, everything else unset). -/
structure Article where
  id : Nat
  article_url : String := ""
  category : String := ""
  status : String := "new"
  title_de : Option String := none
  content_de : Option String := none
  published_date : Option Int := none
  title_en : Option String := none
  content_en : Option String := none
  summary_en : Option String := none
  topic : Option String := none
  sentiment : Option String := none
  urgency : Option String := none
  feedback : Option String := none
  feedback_at : Option Int := none
  active : Bool := true
  recommended_at : Option Int := none
deriving Repr, DecidableEq

/-- Per-topic preference entry, from `recommend.py` (`TopicPreference`). -/
structure TopicPreference where
  count : Int
  latest : Int
deriving Repr, DecidableEq

/-- Output of the translation agent, from `translate.py` (`Translation`). -/
structure Translation where
  title_en : String
  content_en : String
  summary_en : String
deriving Repr, DecidableEq

/-- Output of the classification agent, from `translate.py` (`Classification`). -/
structure Classification where
  topic : String
  sentiment : String
  urgency : String
deriving Repr, DecidableEq

/-- Rows matched by the conditional update
`update({status: ts}).eq(id, i).eq(status, fs)` of `process_one_article_status`
(`scrape.py` lines 191-197); the update result `lock.data` is exactly this list. -/
def casRows (fs : String) (i : Nat) (db : List Article) : List Article :=
  db.filter (fun a => a.id == i && a.status == fs)

/-- Effect on the table of the conditional update of `process_one_article_status`:
every row with the given id still in `fs` moves to `ts`. -/
def applyCas (fs ts : String) (i : Nat) (db : List Article) : List Article :=
  db.map (fun a => if a.id == i && a.status == fs then { a with status := ts } else a)

/-- The select `select("*").eq(status, fs).limit(1)` of `process_one_article_status`
(`scrape.py` lines 176-183): the first row in table order whose status is `fs`. -/
def selectByStatus (fs : String) (db : List Article) : Option Article :=
  (db.filter (fun a => a.status == fs)).head?

/-- Translation of `process_one_article_status` (`scrape.py` lines 163-202) run
sequentially against one table state: select one row in `fs`, then perform the
conditional update; return the pre-image row when the update matched, `none`
otherwise, together with the table after the call. -/
def process_one_article_status (fs ts : String) (db : List Article) :
    Option Article × List Article :=
  match selectByStatus fs db with
  | none => (none, db)
  | some article =>
    let db1 := applyCas fs ts article.id db
    if (casRows fs article.id db).isEmpty then (none, db1) else (some article, db1)

/-- Local state of one in-flight `process_one_article_status` call: before the
select, between the select and the conditional update, or returned. -/
inductive WorkerState where
  | start
  | selected (a : Article)
  | done (r : Option Article)
deriving Repr, DecidableEq

/-- One atomic store access of `process_one_article_status`: the same code as
`process_one_article_status`, split at its two store calls so that calls by
several workers can interleave. Returns the new table and the worker's new
local state. -/
def workerStep (fs ts : String) (db : List Article) (w : WorkerState) :
    List Article × WorkerState :=
  match w with
  | .start =>
    match selectByStatus fs db with
    | none => (db, .done none)
    | some a => (db, .selected a)
  | .selected a =>
    if (casRows fs a.id db).isEmpty then (db, .done none)
    else (applyCas fs ts a.id db, .done (some a))
  | .done r => (db, .done r)

/-- State of the whole system: the shared table and `n` concurrent callers of
`process_one_article_status`. -/
structure SysState (n : Nat) where
  db : List Article
  workers : Fin n → WorkerState

/-- Scheduler step: worker `u` performs its next atomic store access. -/
def sysStep (fs ts : String) (s : SysState n) (u : Fin n) : SysState n :=
  let r := workerStep fs ts s.db (s.workers u)
  { db := r.1, workers := fun v => if v = u then r.2 else s.workers v }

/-- Run an interleaving: the schedule lists which worker moves at each instant. -/
def sysRun (fs ts : String) (s : SysState n) (sched : List (Fin n)) : SysState n :=
  sched.foldl (sysStep fs ts) s

/-- Initial system state: given table, every worker about to issue its select. -/
def initSys (db : List Article) (n : Nat) : SysState n :=
  { db := db, workers := fun _ => .start }

/-- The discovery upsert of `add_new_article` (`scrape.py` lines 79-86):
`upsert({article_url, category}, on_conflict article_url)`. With the client's
default merge-on-duplicate semantics, a conflicting row has its payload
columns (`article_url`, `category`) overwritten and is returned; otherwise a
fresh row is inserted with the store defaults and returned. `freshId` is the
store-assigned id of a newly inserted row. -/
def upsertArticle (url cat : String) (freshId : Nat) (db : List Article) :
    List Article × Article :=
  match db.find? (fun a => a.article_url == url) with
  | some a =>
    (db.map (fun b => if b.article_url == url then { b with category := cat } else b),
     { a with category := cat })
  | none =>
    let row : Article := { id := freshId, article_url := url, category := cat }
    (db ++ [row], row)

/-- Rows read by `get_topic_preferences` (`recommend.py` lines 36-43):
`feedback = up` and `active = true`. -/
def upRows (db : List Article) : List Article :=
  db.filter (fun a => a.feedback == some "up" && a.active)

/-- Dictionary lookup `prefs.get(topic)` on the preference map, modelled as an
association list in insertion order. -/
def lookupPref (prefs : List (String × TopicPreference)) (t : String) :
    Option TopicPreference :=
  (prefs.find? (fun q => q.1 == t)).map (fun q => q.2)

/-- Dictionary update `prefs[topic] = p` for a key already present. -/
def setPref (prefs : List (String × TopicPreference)) (t : String)
    (p : TopicPreference) : List (String × TopicPreference) :=
  prefs.map (fun q => if q.1 == t then (t, p) else q)

/-- Body of the row loop of `get_topic_preferences` (`recommend.py` lines 47-64):
skip the row when topic or feedback timestamp is falsy; otherwise create the
topic entry if absent (count 0, latest ts), increment the count, and set
`latest` to ts when the count is 1 or ts is newer. -/
def prefStep (prefs : List (String × TopicPreference)) (row : Article) :
    List (String × TopicPreference) :=
  match row.topic, row.feedback_at with
  | some t, some ts =>
    if t = "" then prefs
    else
      match lookupPref prefs t with
      | none => prefs ++ [(t, { count := 1, latest := ts })]
      | some pref =>
        let c := pref.count + 1
        let l := if c = 1 ∨ pref.latest < ts then ts else pref.latest
        setPref prefs t { count := c, latest := l }
  | _, _ => prefs

/-- Translation of `get_topic_preferences` (`recommend.py` lines 19-66). -/
def get_topic_preferences (db : List Article) : List (String × TopicPreference) :=
  (upRows db).foldl prefStep []

/-- Translation of `get_unseen_articles` (`recommend.py` lines 69-89):
`active = true`, `feedback` null, `recommended_at` null. The source projects a
few columns; rows are kept whole here, which the callers never observe. -/
def get_unseen_articles (db : List Article) : List Article :=
  db.filter (fun a => a.active && a.feedback == none && a.recommended_at == none)

/-- Whole-days difference of two datetimes, Python `(now - latest).days`. -/
def daysBetween (now latest : Int) : Int :=
  (now - latest).fdiv 86400

/-- Topic term of `score_article` (`recommend.py` lines 115-124): frequency
plus clamped recency when the article's topic is truthy and known. -/
def topicScore (now : Int) (article : Article)
    (topic_prefs : List (String × TopicPreference)) : Int :=
  match article.topic with
  | none => 0
  | some t =>
    if t = "" then 0
    else
      match lookupPref topic_prefs t with
      | none => 0
      | some pref => pref.count * 3 + max 0 (5 - daysBetween now pref.latest)

/-- Freshness term of `score_article` (`recommend.py` lines 127-131): clamped
age bonus when the published date is truthy. -/
def freshnessScore (today : Int) (article : Article) : Int :=
  match article.published_date with
  | none => 0
  | some d => max 0 (3 - (today - d))

/-- Translation of `score_article` (`recommend.py` lines 92-133): the score
accumulator starts at zero and receives the topic terms and the freshness
bonus. -/
def score_article (now today : Int) (article : Article)
    (topic_prefs : List (String × TopicPreference)) : Int :=
  topicScore now article topic_prefs + freshnessScore today article

/-- Insertion into a descending run used by the stable sort model: walk past
strictly greater scores, stop at the first score not greater, so an element
lands after earlier-inserted greater scores and before equal ones. -/
def insertScoredDesc (x : Int × Article) : List (Int × Article) → List (Int × Article)
  | [] => [x]
  | y :: ys => if x.1 < y.1 then y :: insertScoredDesc x ys else x :: y :: ys

/-- Model of `scored.sort(key score, reverse true)` (`recommend.py` line 194):
Python's sort is the stable descending sort by score, here realised as a
stable insertion sort, extensionally the same list. -/
def sortScoredDesc (l : List (Int × Article)) : List (Int × Article) :=
  l.foldr insertScoredDesc []

/-- Translation of `mark_as_recommended` (`recommend.py` lines 136-155): one
update per returned article setting `recommended_at` to the current time. -/
def mark_as_recommended (now : Int) (db : List Article)
    (articles : List Article) : List Article :=
  if articles.isEmpty then db
  else
    articles.foldl
      (fun acc a =>
        acc.map (fun b =>
          if b.id == a.id then { b with recommended_at := some now } else b))
      db

/-- Translation of `get_recommendations` (`recommend.py` lines 158-200):
build preferences, stop on empty; fetch unseen candidates, stop on empty;
score, stable descending sort, take the first `limit`, mark them recommended.
Returns the recommendations and the table after the call. -/
def get_recommendations (now today : Int) (limit : Nat) (db : List Article) :
    List Article × List Article :=
  let topic_prefs := get_topic_preferences db
  if topic_prefs.isEmpty then ([], db)
  else
    let candidates := get_unseen_articles db
    if candidates.isEmpty then ([], db)
    else
      let scored := candidates.map (fun a => (score_article now today a topic_prefs, a))
      let recommendations := ((sortScoredDesc scored).take limit).map (fun p => p.2)
      (recommendations, mark_as_recommended now db recommendations)

/-- Translation of `handle_thumbs_up` (`telegram_bot/feedback.py` lines 7-22). -/
def handle_thumbs_up (now : Int) (article_id : Nat) (db : List Article) :
    List Article :=
  db.map (fun b =>
    if b.id == article_id then
      { b with feedback := some "up", feedback_at := some now }
    else b)

/-- Translation of `handle_thumbs_down` (`telegram_bot/feedback.py` lines 25-41). -/
def handle_thumbs_down (now : Int) (article_id : Nat) (db : List Article) :
    List Article :=
  db.map (fun b =>
    if b.id == article_id then
      { b with feedback := some "down", feedback_at := some now, active := false }
    else b)

/-- Success update of the scrape runner (`scrape.py` lines 224-229): persist
title, content and published date and move the row to `scrapped`. -/
def saveScrapeResult (article_id : Nat) (title content : String) (pub : Int)
    (db : List Article) : List Article :=
  db.map (fun b =>
    if b.id == article_id then
      { b with title_de := some title, content_de := some content,
               published_date := some pub, status := "scrapped" }
    else b)

/-- Failure update of both stage runners (`scrape.py` lines 235-237,
`translate.py` lines 195-197): move the row to `failed`, nothing else. -/
def markFailed (article_id : Nat) (db : List Article) : List Article :=
  db.map (fun b => if b.id == article_id then { b with status := "failed" } else b)

/-- Translation of `save_translation_and_classification` (`translate.py`
lines 137-157). -/
def save_translation_and_classification (article_id : Nat) (tr : Translation)
    (cl : Classification) (db : List Article) : List Article :=
  db.map (fun b =>
    if b.id == article_id then
      { b with title_en := some tr.title_en, content_en := some tr.content_en,
               summary_en := some tr.summary_en, topic := some cl.topic,
               sentiment := some cl.sentiment, urgency := some cl.urgency,
               status := "translated" }
    else b)

/-- One iteration of the scrape runner loop (`scrape.py` lines 215-239).
The external scraper is an oracle producing either the scraped triple or a
declared error (`ValidationError` or `RuntimeError`); `none` means no article
was claimed and the loop ends. -/
def scrape_step (scraper : String → Except String (String × String × Int))
    (db : List Article) : Option (List Article) :=
  match process_one_article_status "new" "scraping" db with
  | (none, _) => none
  | (some article, db1) =>
    match scraper article.article_url with
    | .ok r => some (saveScrapeResult article.id r.1 r.2.1 r.2.2 db1)
    | .error _ => some (markFailed article.id db1)

/-- Translation of `scrape_all_new_articles` (`scrape.py` lines 205-239): loop
`scrape_step` until no work is claimed. The loop needs no bound in the source;
here `fuel` bounds the iteration count. -/
def scrape_all_new_articles (scraper : String → Except String (String × String × Int)) :
    Nat → List Article → List Article
  | 0, db => db
  | fuel + 1, db =>
    match scrape_step scraper db with
    | none => db
    | some db1 => scrape_all_new_articles scraper fuel db1

/-- One iteration of the translate/classify runner loop (`translate.py`
lines 160-197). The translation and classification agents are oracles taking
the fields the source extracts and failing with a declared error; the final
notification is an external fire-and-forget call with no table effect. -/
def process_steps_once
    (tr : Option String → Option String → Except String Translation)
    (cl : String → String → Except String Classification)
    (db : List Article) : Option (List Article) :=
  match process_one_article_status "scrapped" "translating" db with
  | (none, _) => none
  | (some article, db1) =>
    match tr article.title_de article.content_de with
    | .error _ => some (markFailed article.id db1)
    | .ok t =>
      match cl t.title_en t.content_en with
      | .error _ => some (markFailed article.id db1)
      | .ok c => some (save_translation_and_classification article.id t c db1)

/-- Every table write the system performs, one constructor per update site:
the discovery upsert, the claim of the transition engine, the success and
failure updates of the two stage runners, the two feedback updates, and a
whole `get_recommendations` call. -/
inductive Op where
  | upsert (url cat : String) (freshId : Nat)
  | claim (fs ts : String)
  | scrapeOk (id : Nat) (title content : String) (pub : Int)
  | stageFailed (id : Nat)
  | translateOk (id : Nat) (tr : Translation) (cl : Classification)
  | thumbsUp (now : Int) (id : Nat)
  | thumbsDown (now : Int) (id : Nat)
  | recommend (now today : Int) (limit : Nat)
deriving Repr

/-- Table effect of one operation. -/
def applyOp : Op → List Article → List Article
  | .upsert url cat fid, db => (upsertArticle url cat fid db).1
  | .claim fs ts, db => (process_one_article_status fs ts db).2
  | .scrapeOk i t c p, db => saveScrapeResult i t c p db
  | .stageFailed i, db => markFailed i db
  | .translateOk i t c, db => save_translation_and_classification i t c db
  | .thumbsUp n i, db => handle_thumbs_up n i db
  | .thumbsDown n i, db => handle_thumbs_down n i db
  | .recommend n t l, db => (get_recommendations n t l db).2

/-- Store-side well-formedness of one operation against the current table: a
discovery insert that actually inserts uses a store-assigned id not already
present (ids are store-assigned and unique). -/
def opOk (db : List Article) : Op → Prop
  | .upsert url _ fid =>
      (db.find? (fun a => a.article_url == url)).isSome ∨ ∀ b ∈ db, b.id ≠ fid
  | _ => True

/-- A sequence of operations each well-formed against the table it runs on. -/
def ValidTrace : List Op → List Article → Prop
  | [], _ => True
  | o :: ops, db => opOk db o ∧ ValidTrace ops (applyOp o db)

/-- Table after running a sequence of operations. -/
def runTrace (ops : List Op) (db : List Article) : List Article :=
  ops.foldl (fun d o => applyOp o d) db

/-- Stated from the claim C9: the feedback timestamp a row contributes to
topic `t` — present exactly when the row's topic is `t` (nonempty) and its
feedback timestamp is present. -/
def rowContrib (t : String) (a : Article) : Option Int :=
  match a.topic, a.feedback_at with
  | some u, some ts => if u = t ∧ u ≠ "" then some ts else none
  | _, _ => none

/-- Stated from the claim C9: the feedback timestamps of the rows contributing
to topic `t`, namely the `feedback = up`, `active = true` rows whose topic is
`t` (nonempty) and whose feedback timestamp is present. -/
def specContrib (db : List Article) (t : String) : List Int :=
  (upRows db).filterMap (rowContrib t)

/-- Well-formedness of a preference map: every entry's count is at least 1. -/
def PrefWF (prefs : List (String × TopicPreference)) : Prop :=
  ∀ q ∈ prefs, 1 ≤ q.2.count

/-- Stated from the claim C9: how a map entry combines with a list of
contributed timestamps — the count grows by their number and the latest
timestamp is the running maximum, an entry appearing on first contribution. -/
def combinePref (o : Option TopicPreference) (c : List Int) :
    Option TopicPreference :=
  match o, c with
  | none, [] => none
  | none, ts :: rest =>
    some { count := (rest.length : Int) + 1, latest := rest.foldl max ts }
  | some p, c =>
    some { count := p.count + c.length, latest := c.foldl max p.latest }

/-- Mutual-exclusion invariant of the concurrent claim system for source state
`fs`: once a worker has claimed an article, no table row with that article's id
is still in `fs`, and no other worker has claimed an article with that id. -/
def ClaimInv (fs : String) {n : Nat} (s : SysState n) : Prop :=
  ∀ w a, s.workers w = .done (some a) →
    (∀ b ∈ s.db, b.id = a.id → b.status ≠ fs) ∧
    ∀ v b, v ≠ w → s.workers v = .done (some b) → b.id ≠ a.id

section Helpers

/-- Pointwise description of a mapped list as a `Forall₂` relation. -/
theorem forall2_self_map {α β : Type} (R : α → β → Prop) (f : α → β) :
    ∀ l : List α, (∀ b ∈ l, R b (f b)) → List.Forall₂ R l (l.map f)
  | [], _ => List.Forall₂.nil
  | b :: l, h =>
    List.Forall₂.cons (h b (by simp))
      (forall2_self_map R f l (fun x hx => h x (by simp [hx])))

end Helpers

/-- Claim C2: the claim operation returns no work, deterministically, when no
article is in `from_status`; it returns no work when the conditional update
matches zero rows because the selected row's status changed between the select
and the update; and when the update matches exactly one row it returns the
selected row's pre-image, a row of the table as read whose status still equals
`from_status`. -/
theorem claim_no_work_and_preimage (fs ts : String) (db db1 : List Article) :
    ((∀ a ∈ db, a.status ≠ fs) → process_one_article_status fs ts db = (none, db))
    ∧ (∀ a, selectByStatus fs db = some a → casRows fs a.id db1 = [] →
        workerStep fs ts db1 (.selected a) = (db1, .done none))
    ∧ (∀ a, selectByStatus fs db = some a → (casRows fs a.id db1).length = 1 →
        workerStep fs ts db1 (.selected a) = (applyCas fs ts a.id db1, .done (some a))
        ∧ a ∈ db ∧ a.status = fs) := by
  refine ⟨?_, ?_, ?_⟩
  · intro h
    have hf : db.filter (fun a => a.status == fs) = [] := by
      rw [List.filter_eq_nil_iff]
      intro a ha
      simpa using h a ha
    simp [process_one_article_status, selectByStatus, hf]
  · intro a hsel hcas
    simp [workerStep, hcas]
  · intro a hsel hone
    have hmem : a ∈ db.filter (fun x => x.status == fs) := by
      refine List.mem_of_mem_head? (a := a) ?_
      rw [selectByStatus] at hsel
      simp [hsel]
    have hmem' := List.mem_filter.mp hmem
    refine ⟨?_, hmem'.1, by simpa using hmem'.2⟩
    have : (casRows fs a.id db1).isEmpty = false := by
      cases hc : casRows fs a.id db1 with
      | nil => rw [hc] at hone; simp at hone
      | cons x xs => simp [hc]
    simp [workerStep, this]

/-- Witness for C2: on a one-row table holding a `new` article, the claim
`new` to `scraping` performs the conditional update and returns the pre-image. -/
theorem claim_no_work_and_preimage_witness :
    workerStep "new" "scraping" [({ id := 1 } : Article)] (.selected { id := 1 }) =
      (applyCas "new" "scraping" 1 [({ id := 1 } : Article)], .done (some { id := 1 }))
    ∧ ({ id := 1 } : Article) ∈ [({ id := 1 } : Article)]
    ∧ ({ id := 1 } : Article).status = "new" :=
  (claim_no_work_and_preimage "new" "scraping" [{ id := 1 }] [{ id := 1 }]).2.2
    { id := 1 } (by decide) (by decide)

/-- Counterexample to C3: the discovery upsert on an already stored URL is not
a no-op that returns the existing row — rediscovering the row
`id 1, url "u", category "Inland"` under category `"USA"` overwrites its
`category` field, both in the table and in the returned row. -/
theorem upsert_existing_overwrites_category :
    (upsertArticle "u" "USA" 2
        [{ id := 1, article_url := "u", category := "Inland",
           status := "scrapped", title_de := some "T" }]).1 ≠
      [{ id := 1, article_url := "u", category := "Inland",
         status := "scrapped", title_de := some "T" }]
    ∧ (upsertArticle "u" "USA" 2
        [{ id := 1, article_url := "u", category := "Inland",
           status := "scrapped", title_de := some "T" }]).2.category = "USA" := by
  constructor
  · decide
  · decide

/-- Claim C3 as amended: for a URL already present, the discovery upsert
creates no second row and returns the stored row with only its discovery
payload field `category` replaced; every stored row keeps its identity and all
fields outside the discovery payload — in particular all scrape-stage data
(status, title, content, published date) and all later-stage fields. -/
theorem upsert_existing_amended (url cat : String) (fid : Nat) (db : List Article)
    (a : Article) (h : db.find? (fun b => b.article_url == url) = some a) :
    (upsertArticle url cat fid db).2 = { a with category := cat }
    ∧ (upsertArticle url cat fid db).1.length = db.length
    ∧ List.Forall₂ (fun b c =>
        c.id = b.id ∧ c.article_url = b.article_url ∧ c.status = b.status ∧
        c.title_de = b.title_de ∧ c.content_de = b.content_de ∧
        c.published_date = b.published_date ∧ c.title_en = b.title_en ∧
        c.content_en = b.content_en ∧ c.summary_en = b.summary_en ∧
        c.topic = b.topic ∧ c.sentiment = b.sentiment ∧ c.urgency = b.urgency ∧
        c.feedback = b.feedback ∧ c.feedback_at = b.feedback_at ∧
        c.active = b.active ∧ c.recommended_at = b.recommended_at)
      db (upsertArticle url cat fid db).1 := by
  refine ⟨by simp [upsertArticle, h], by simp [upsertArticle, h], ?_⟩
  have : (upsertArticle url cat fid db).1 =
      db.map (fun b => if b.article_url == url then { b with category := cat } else b) := by
    simp [upsertArticle, h]
  rw [this]
  refine forall2_self_map _ _ db (fun b _ => ?_)
  by_cases hb : b.article_url == url <;> simp [hb]

/-- Witness for C3 (amended): rediscovering url `"u"` with a different
category keeps the stored row's id, url, status and scrape fields. -/
theorem upsert_existing_amended_witness :
    (upsertArticle "u" "USA" 2
        [{ id := 1, article_url := "u", category := "Inland",
           status := "scrapped", title_de := some "T" }]).2 =
      { id := 1, article_url := "u", category := "USA",
        status := "scrapped", title_de := some "T" }
    ∧ (upsertArticle "u" "USA" 2
        [{ id := 1, article_url := "u", category := "Inland",
           status := "scrapped", title_de := some "T" }]).1.length = 1
    ∧ List.Forall₂ (fun (b c : Article) =>
        c.id = b.id ∧ c.article_url = b.article_url ∧ c.status = b.status ∧
        c.title_de = b.title_de ∧ c.content_de = b.content_de ∧
        c.published_date = b.published_date ∧ c.title_en = b.title_en ∧
        c.content_en = b.content_en ∧ c.summary_en = b.summary_en ∧
        c.topic = b.topic ∧ c.sentiment = b.sentiment ∧ c.urgency = b.urgency ∧
        c.feedback = b.feedback ∧ c.feedback_at = b.feedback_at ∧
        c.active = b.active ∧ c.recommended_at = b.recommended_at)
      [{ id := 1, article_url := "u", category := "Inland",
         status := "scrapped", title_de := some "T" }]
      (upsertArticle "u" "USA" 2
        [{ id := 1, article_url := "u", category := "Inland",
           status := "scrapped", title_de := some "T" }]).1 :=
  upsert_existing_amended "u" "USA" 2
    [{ id := 1, article_url := "u", category := "Inland",
       status := "scrapped", title_de := some "T" }]
    { id := 1, article_url := "u", category := "Inland",
      status := "scrapped", title_de := some "T" } (by decide)

/-- Claim C4: for a truthy topic known to the preference map and a present
published date, the score is exactly the sum of the three zero-clamped terms
`count * 3`, `max 0 (5 - days_since_like)` and `max 0 (3 - days_old)`; on the
spec's examples an Economy article published today with count 2 and a like one
day ago scores 13, and an article of an unseen topic published today scores 3. -/
theorem score_article_formula (now today : Int) (a : Article)
    (prefs : List (String × TopicPreference)) (t : String)
    (pref : TopicPreference) (d : Int)
    (ht : a.topic = some t) (hne : t ≠ "") (hp : lookupPref prefs t = some pref)
    (hd : a.published_date = some d) :
    score_article now today a prefs =
      pref.count * 3 + max 0 (5 - (now - pref.latest).fdiv 86400)
        + max 0 (3 - (today - d))
    ∧ score_article 864000 700
        { id := 1, topic := some "Economy", published_date := some 700 }
        [("Economy", { count := 2, latest := 777600 })] = 13
    ∧ score_article 864000 700
        { id := 2, topic := some "Politics", published_date := some 700 }
        [("Economy", { count := 2, latest := 777600 })] = 3 := by
  refine ⟨?_, by decide, by decide⟩
  simp [score_article, topicScore, freshnessScore, daysBetween, ht, hne, hp, hd]

/-- Witness for C4: the formula applied to the spec's Economy example. -/
theorem score_article_formula_witness :
    score_article 864000 700
        { id := 1, topic := some "Economy", published_date := some 700 }
        [("Economy", { count := 2, latest := 777600 })] =
      2 * 3 + max 0 (5 - ((864000 : Int) - 777600).fdiv 86400)
        + max 0 (3 - ((700 : Int) - 700))
    ∧ score_article 864000 700
        { id := 1, topic := some "Economy", published_date := some 700 }
        [("Economy", { count := 2, latest := 777600 })] = 13
    ∧ score_article 864000 700
        { id := 2, topic := some "Politics", published_date := some 700 }
        [("Economy", { count := 2, latest := 777600 })] = 3 :=
  score_article_formula 864000 700
    { id := 1, topic := some "Economy", published_date := some 700 }
    [("Economy", { count := 2, latest := 777600 })] "Economy"
    { count := 2, latest := 777600 } 700 rfl (by decide) (by decide) rfl

/-- Claim C10: the score of an article whose topic is missing, empty, or
absent from the preference map gets 0 from both topic terms; a missing or
empty published date gets 0 from the freshness term; and for any preference
map with non-negative counts the score is non-negative. -/
theorem score_article_defensive (now today : Int) (a : Article)
    (prefs : List (String × TopicPreference)) :
    (a.topic = none → topicScore now a prefs = 0)
    ∧ (a.topic = some "" → topicScore now a prefs = 0)
    ∧ (∀ t, a.topic = some t → lookupPref prefs t = none → topicScore now a prefs = 0)
    ∧ (a.published_date = none → freshnessScore today a = 0)
    ∧ ((∀ q ∈ prefs, 0 ≤ q.2.count) → 0 ≤ score_article now today a prefs) := by
  refine ⟨?_, ?_, ?_, ?_, ?_⟩
  · intro h; simp [topicScore, h]
  · intro h; simp [topicScore, h]
  · intro t ht hl
    by_cases hne : t = "" <;> simp [topicScore, ht, hl, hne]
  · intro h; simp [freshnessScore, h]
  · intro hcount
    have h1 : 0 ≤ topicScore now a prefs := by
      rw [topicScore]
      cases ht : a.topic with
      | none => simp
      | some t =>
        by_cases hne : t = ""
        · simp [hne]
        · simp [hne]
          cases hl : lookupPref prefs t with
          | none => simp
          | some pref =>
            simp
            have hmem : ∃ q ∈ prefs, q.2 = pref := by
              rw [lookupPref] at hl
              cases hf : prefs.find? (fun q => q.1 == t) with
              | none => simp [hf] at hl
              | some q =>
                refine ⟨q, List.mem_of_find?_eq_some hf, ?_⟩
                simp [hf] at hl
                exact hl
            rcases hmem with ⟨q, hq, hqe⟩
            have hc : 0 ≤ pref.count := hqe ▸ hcount q hq
            have h2 : 0 ≤ pref.count * 3 := by positivity
            have h3 : 0 ≤ max 0 (5 - daysBetween now pref.latest) := le_max_left _ _
            omega
    have h2 : 0 ≤ freshnessScore today a := by
      rw [freshnessScore]
      cases a.published_date with
      | none => simp
      | some d => exact le_max_left _ _
    rw [score_article]
    omega

/-- Witness for C10: an article with no topic and no published date scores 0
on a preference map with a non-negative count. -/
theorem score_article_defensive_witness :
    (({ id := 7 } : Article).topic = none →
      topicScore 0 { id := 7 } [("Economy", { count := 2, latest := 0 })] = 0)
    ∧ (({ id := 7 } : Article).topic = some "" →
      topicScore 0 { id := 7 } [("Economy", { count := 2, latest := 0 })] = 0)
    ∧ (∀ t, ({ id := 7 } : Article).topic = some t →
      lookupPref [("Economy", { count := 2, latest := 0 })] t = none →
      topicScore 0 { id := 7 } [("Economy", { count := 2, latest := 0 })] = 0)
    ∧ (({ id := 7 } : Article).published_date = none →
      freshnessScore 0 { id := 7 } = 0)
    ∧ ((∀ q ∈ [("Economy", ({ count := 2, latest := 0 } : TopicPreference))], 0 ≤ q.2.count) →
      0 ≤ score_article 0 0 { id := 7 } [("Economy", { count := 2, latest := 0 })]) :=
  score_article_defensive 0 0 { id := 7 } [("Economy", { count := 2, latest := 0 })]

/-- Unfolding lemma: lookup on a non-empty association list. -/
theorem lookupPref_cons (q : String × TopicPreference)
    (l : List (String × TopicPreference)) (t : String) :
    lookupPref (q :: l) t = if q.1 = t then some q.2 else lookupPref l t := by
  by_cases h : q.1 = t <;> simp [lookupPref, List.find?_cons, h]

/-- A successful lookup exhibits a map entry. -/
theorem lookupPref_some_mem {l : List (String × TopicPreference)} {t : String}
    {p : TopicPreference} (h : lookupPref l t = some p) : (t, p) ∈ l := by
  induction l with
  | nil => simp [lookupPref] at h
  | cons q l ih =>
    rw [lookupPref_cons] at h
    by_cases hq : q.1 = t
    · rw [if_pos hq] at h
      cases q with
      | mk q1 q2 =>
        simp at hq h
        simp [hq, h]
    · rw [if_neg hq] at h
      exact List.mem_cons_of_mem _ (ih h)

/-- Lookup after appending an entry at the end of the map. -/
theorem lookupPref_append (l1 l2 : List (String × TopicPreference)) (t : String) :
    lookupPref (l1 ++ l2) t =
      match lookupPref l1 t with
      | some p => some p
      | none => lookupPref l2 t := by
  induction l1 with
  | nil => simp [lookupPref]
  | cons q l ih =>
    rw [List.cons_append, lookupPref_cons, lookupPref_cons]
    by_cases hq : q.1 = t
    · simp [hq]
    · simp only [if_neg hq]
      exact ih

/-- Lookup after the in-place dictionary update of key `t`. -/
theorem lookupPref_setPref (l : List (String × TopicPreference)) (t t' : String)
    (p : TopicPreference) :
    lookupPref (setPref l t p) t' =
      if t' = t then (lookupPref l t).map (fun _ => p) else lookupPref l t' := by
  induction l with
  | nil => by_cases h : t' = t <;> simp [setPref, lookupPref, h]
  | cons q l ih =>
    have hsp : setPref (q :: l) t p =
        (if q.1 = t then (t, p) else q) :: setPref l t p := by
      by_cases hq : q.1 = t <;> simp [setPref, hq]
    rw [hsp]
    simp only [lookupPref_cons, ih]
    by_cases hq : q.1 = t
    · by_cases ht : t' = t
      · simp [hq, ht]
      · have ht2 : ¬t = t' := fun h => ht h.symm
        simp [hq, ht, ht2]
    · by_cases ht : t' = t
      · have hq2 : ¬q.1 = t' := by rw [ht]; exact hq
        simp [hq, ht, hq2]
      · simp [hq, ht]

/-- Membership in the updated map comes from the new entry or an old one. -/
theorem mem_setPref {prefs : List (String × TopicPreference)} {t : String}
    {p : TopicPreference} {q : String × TopicPreference}
    (h : q ∈ setPref prefs t p) : q = (t, p) ∨ q ∈ prefs := by
  rcases List.mem_map.mp h with ⟨r, hr, hrq⟩
  by_cases hc : r.1 == t
  · left; rw [if_pos hc] at hrq; exact hrq.symm
  · right; rw [if_neg (by simp [hc])] at hrq; exact hrq ▸ hr

/-- One loop iteration preserves well-formedness. -/
theorem prefStep_wf {prefs : List (String × TopicPreference)} (row : Article)
    (h : PrefWF prefs) : PrefWF (prefStep prefs row) := by
  cases hu : row.topic with
  | none => simpa [prefStep, hu] using h
  | some t =>
    cases hts : row.feedback_at with
    | none => simpa [prefStep, hu, hts] using h
    | some ts =>
      by_cases hE : t = ""
      · simpa [prefStep, hu, hts, hE] using h
      · cases hl : lookupPref prefs t with
        | none =>
          simp only [prefStep, hu, hts, if_neg hE, hl]
          intro q hq
          rcases List.mem_append.mp hq with hq | hq
          · exact h q hq
          · simp at hq; subst hq; simp
        | some p =>
          simp only [prefStep, hu, hts, if_neg hE, hl]
          intro q hq
          rcases mem_setPref hq with hq | hq
          · subst hq
            have := h (t, p) (lookupPref_some_mem hl)
            simp at this ⊢
            omega
          · exact h q hq

/-- A non-contributing row leaves topic `t`'s map entry unchanged. -/
theorem prefStep_lookup_other {t : String} (row : Article)
    (prefs : List (String × TopicPreference)) (h : rowContrib t row = none) :
    lookupPref (prefStep prefs row) t = lookupPref prefs t := by
  cases hu : row.topic with
  | none => simp [prefStep, hu]
  | some u =>
    cases hts : row.feedback_at with
    | none => simp [prefStep, hu, hts]
    | some ts =>
      simp only [rowContrib, hu, hts] at h
      by_cases hE : u = ""
      · simp [prefStep, hu, hts, hE]
      · have hut : u ≠ t := by
          intro he
          rw [if_pos ⟨he, hE⟩] at h
          exact Option.noConfusion h
        cases hl : lookupPref prefs u with
        | none =>
          simp only [prefStep, hu, hts, if_neg hE, hl]
          rw [lookupPref_append]
          cases hlt : lookupPref prefs t with
          | none => simp [lookupPref_cons, lookupPref, hut]
          | some pt => simp
        | some p =>
          simp only [prefStep, hu, hts, if_neg hE, hl]
          rw [lookupPref_setPref, if_neg (fun he => hut he.symm)]

/-- A contributing row creates topic `t`'s entry with count 1 and its own
timestamp, or increments the count and keeps the later timestamp. -/
theorem prefStep_lookup_contrib {t : String} (row : Article) (ts : Int)
    (prefs : List (String × TopicPreference)) (h : rowContrib t row = some ts)
    (hwf : PrefWF prefs) :
    lookupPref (prefStep prefs row) t =
      some (match lookupPref prefs t with
        | none => { count := 1, latest := ts }
        | some p => { count := p.count + 1, latest := max p.latest ts }) := by
  have hcond : row.topic = some t ∧ t ≠ "" ∧ row.feedback_at = some ts := by
    cases hu : row.topic with
    | none => simp [rowContrib, hu] at h
    | some u =>
      cases hts : row.feedback_at with
      | none => simp [rowContrib, hu, hts] at h
      | some ts' =>
        simp only [rowContrib, hu, hts] at h
        by_cases hc : u = t ∧ u ≠ ""
        · rw [if_pos hc] at h
          rcases hc with ⟨rfl, hne⟩
          cases h
          exact ⟨rfl, hne, rfl⟩
        · rw [if_neg hc] at h; exact Option.noConfusion h
  rcases hcond with ⟨hu, hne, hts⟩
  cases hl : lookupPref prefs t with
  | none =>
    simp only [prefStep, hu, hts, if_neg hne, hl]
    rw [lookupPref_append, hl]
    simp [lookupPref_cons]
  | some p =>
    simp only [prefStep, hu, hts, if_neg hne, hl]
    have hc : ¬(p.count + 1 = 1) := by
      have := hwf (t, p) (lookupPref_some_mem hl)
      simp at this
      omega
    rw [lookupPref_setPref, if_pos rfl, hl]
    simp only [Option.map]
    congr 2
    have hiff : (p.count + 1 = 1 ∨ p.latest < ts) ↔ p.latest < ts := by
      constructor
      · rintro (h1 | h2)
        · exact absurd h1 hc
        · exact h2
      · exact Or.inr
    rw [if_congr hiff rfl rfl]
    rcases lt_or_ge p.latest ts with hlt | hge
    · rw [if_pos hlt, max_eq_right (le_of_lt hlt)]
    · rw [if_neg (not_lt.mpr hge), max_eq_left hge]

/-- A left fold of `max` yields the start value or a list element. -/
theorem foldl_max_mem : ∀ (l : List Int) (a : Int),
    l.foldl max a = a ∨ l.foldl max a ∈ l
  | [], _ => Or.inl rfl
  | x :: xs, a => by
    rcases foldl_max_mem xs (max a x) with h | h
    · rw [List.foldl_cons, h]
      rcases max_choice a x with h2 | h2
      · exact Or.inl h2
      · refine Or.inr ?_
        rw [h2]
        exact List.mem_cons_self x xs
    · right
      rw [List.foldl_cons]
      exact List.mem_cons_of_mem _ h

/-- A left fold of `max` bounds the start value and every list element. -/
theorem le_foldl_max : ∀ (l : List Int) (a : Int),
    a ≤ l.foldl max a ∧ ∀ x ∈ l, x ≤ l.foldl max a
  | [], a => ⟨le_refl a, by simp⟩
  | x :: xs, a => by
    have ih := le_foldl_max xs (max a x)
    refine ⟨le_trans (le_max_left a x) ih.1, ?_⟩
    intro y hy
    rw [List.foldl_cons]
    rcases List.mem_cons.mp hy with rfl | hy
    · exact le_trans (le_max_right a y) ih.1
    · exact ih.2 y hy

/-- Unfolding lemma for `combinePref` on an absent entry and no contribution. -/
theorem combinePref_none_nil : combinePref none [] = none := rfl

/-- Unfolding lemma for `combinePref` on an absent entry and contributions. -/
theorem combinePref_none_cons (ts : Int) (rest : List Int) :
    combinePref none (ts :: rest) =
      some { count := (rest.length : Int) + 1, latest := rest.foldl max ts } := rfl

/-- Unfolding lemma for `combinePref` on a present entry. -/
theorem combinePref_some (p : TopicPreference) (c : List Int) :
    combinePref (some p) c =
      some { count := p.count + c.length, latest := c.foldl max p.latest } := rfl

/-- Characterization of the preference fold: the entry of topic `t` after
folding the loop body over a row list combines the accumulator's entry with
the rows' contributions. -/
theorem foldl_prefStep_lookup :
    ∀ (rows : List Article) (acc : List (String × TopicPreference)) (t : String),
    PrefWF acc →
    lookupPref (rows.foldl prefStep acc) t =
      combinePref (lookupPref acc t) (rows.filterMap (rowContrib t))
  | [], acc, t, _ => by
    cases hl : lookupPref acc t with
    | none => rw [List.foldl_nil, List.filterMap_nil, combinePref_none_nil, hl]
    | some p =>
      rw [List.foldl_nil, List.filterMap_nil, combinePref_some, hl]
      simp
  | r :: rest, acc, t, hwf => by
    rw [List.foldl_cons, List.filterMap_cons]
    cases hr : rowContrib t r with
    | none =>
      rw [foldl_prefStep_lookup rest (prefStep acc r) t (prefStep_wf r hwf),
        prefStep_lookup_other r acc hr]
    | some ts =>
      rw [foldl_prefStep_lookup rest (prefStep acc r) t (prefStep_wf r hwf),
        prefStep_lookup_contrib r ts acc hr hwf]
      cases hl : lookupPref acc t with
      | none =>
        rw [combinePref_some, combinePref_none_cons]
        congr 2
        push_cast
        ring
      | some p =>
        rw [combinePref_some, combinePref_some, List.foldl_cons, List.length_cons]
        congr 2
        push_cast
        ring

/-- Claim C9: the preference profile is built from exactly the `feedback = up`,
`active = true` rows, skipping rows with a missing topic or feedback
timestamp; a topic appears in the result exactly when it has contributing
rows, its count is their number, and its latest is the maximum of their
timestamps — and both values are unchanged under any reordering of the rows. -/
theorem topic_pref_characterization (db : List Article) (t : String) :
    (lookupPref (get_topic_preferences db) t = none ↔ specContrib db t = [])
    ∧ (∀ p, lookupPref (get_topic_preferences db) t = some p →
        p.count = ((specContrib db t).length : Int)
        ∧ p.latest ∈ specContrib db t
        ∧ ∀ ts ∈ specContrib db t, ts ≤ p.latest)
    ∧ (∀ db2, db.Perm db2 → ∀ p p2,
        lookupPref (get_topic_preferences db) t = some p →
        lookupPref (get_topic_preferences db2) t = some p2 →
        p2.count = p.count ∧ p2.latest = p.latest) := by
  have key : ∀ dbx : List Article,
      lookupPref (get_topic_preferences dbx) t = combinePref none (specContrib dbx t) := by
    intro dbx
    have h := foldl_prefStep_lookup (upRows dbx) [] t (by intro q hq; simp at hq)
    rw [get_topic_preferences, h, specContrib]
    rfl
  have char : ∀ (dbx : List Article) (p : TopicPreference),
      lookupPref (get_topic_preferences dbx) t = some p →
        p.count = ((specContrib dbx t).length : Int)
        ∧ p.latest ∈ specContrib dbx t
        ∧ ∀ ts ∈ specContrib dbx t, ts ≤ p.latest := by
    intro dbx p hp
    rw [key dbx] at hp
    cases hc : specContrib dbx t with
    | nil =>
      rw [hc, combinePref_none_nil] at hp
      exact Option.noConfusion hp
    | cons ts rest =>
      rw [hc, combinePref_none_cons] at hp
      have hpe : p = { count := (rest.length : Int) + 1, latest := rest.foldl max ts } := by
        injection hp with h
        exact h.symm
      subst hpe
      refine ⟨by simp, ?_, ?_⟩
      · rcases foldl_max_mem rest ts with h | h
        · simp only [h]
          exact List.mem_cons_self ts rest
        · exact List.mem_cons_of_mem _ h
      · intro x hx
        rcases List.mem_cons.mp hx with rfl | hx
        · exact (le_foldl_max rest x).1
        · exact (le_foldl_max rest ts).2 x hx
  refine ⟨?_, fun p hp => char db p hp, ?_⟩
  · rw [key db]
    cases hc : specContrib db t with
    | nil => simp [combinePref_none_nil]
    | cons ts rest => simp [combinePref_none_cons]
  · intro db2 hperm p p2 hp hp2
    have hcperm : (specContrib db t).Perm (specContrib db2 t) :=
      (hperm.filter _).filterMap _
    have h1 := char db p hp
    have h2 := char db2 p2 hp2
    refine ⟨by rw [h1.1, h2.1, hcperm.length_eq], ?_⟩
    refine le_antisymm ?_ ?_
    · exact h1.2.2 p2.latest (hcperm.mem_iff.mpr h2.2.1)
    · exact h2.2.2 p.latest (hcperm.mem_iff.mp h1.2.1)

/-- Witness for C9: two liked active Economy rows with timestamps 10 and 20
yield count 2 and latest 20. -/
theorem topic_pref_characterization_witness :
    (({ count := 2, latest := 20 } : TopicPreference)).count =
      ((specContrib
        [{ id := 1, topic := some "Economy", feedback := some "up", feedback_at := some 10 },
         { id := 2, topic := some "Economy", feedback := some "up", feedback_at := some 20 }]
        "Economy").length : Int)
    ∧ (({ count := 2, latest := 20 } : TopicPreference)).latest ∈
        specContrib
          [{ id := 1, topic := some "Economy", feedback := some "up", feedback_at := some 10 },
           { id := 2, topic := some "Economy", feedback := some "up", feedback_at := some 20 }]
          "Economy"
    ∧ ∀ ts ∈ specContrib
          [{ id := 1, topic := some "Economy", feedback := some "up", feedback_at := some 10 },
           { id := 2, topic := some "Economy", feedback := some "up", feedback_at := some 20 }]
          "Economy", ts ≤ (({ count := 2, latest := 20 } : TopicPreference)).latest :=
  (topic_pref_characterization
    [{ id := 1, topic := some "Economy", feedback := some "up", feedback_at := some 10 },
     { id := 2, topic := some "Economy", feedback := some "up", feedback_at := some 20 }]
    "Economy").2.1 { count := 2, latest := 20 } (by decide)

/-- Inserting into the sorted run is a permutation of consing. -/
theorem insertScoredDesc_perm (x : Int × Article) :
    ∀ l : List (Int × Article), (insertScoredDesc x l).Perm (x :: l)
  | [] => List.Perm.refl _
  | y :: ys => by
    rw [insertScoredDesc]
    by_cases h : x.1 < y.1
    · rw [if_pos h]
      exact ((insertScoredDesc_perm x ys).cons y).trans (List.Perm.swap x y ys)
    · rw [if_neg h]

/-- The stable sort is a permutation of its input. -/
theorem sortScoredDesc_perm : ∀ l : List (Int × Article), (sortScoredDesc l).Perm l
  | [] => List.Perm.refl _
  | x :: l => by
    rw [sortScoredDesc, List.foldr_cons]
    exact (insertScoredDesc_perm x _).trans ((sortScoredDesc_perm l).cons x)

/-- Inserting into a descending run keeps it descending. -/
theorem insertScoredDesc_sorted (x : Int × Article) :
    ∀ l : List (Int × Article),
    List.Pairwise (fun a b : Int × Article => b.1 ≤ a.1) l →
    List.Pairwise (fun a b : Int × Article => b.1 ≤ a.1) (insertScoredDesc x l)
  | [], _ => List.pairwise_singleton _ x
  | y :: ys, h => by
    rw [insertScoredDesc]
    rcases List.pairwise_cons.mp h with ⟨hy, hys⟩
    by_cases hxy : x.1 < y.1
    · rw [if_pos hxy]
      refine List.pairwise_cons.mpr ⟨?_, insertScoredDesc_sorted x ys hys⟩
      intro z hz
      rcases List.mem_cons.mp ((insertScoredDesc_perm x ys).mem_iff.mp hz) with rfl | hz
      · exact le_of_lt hxy
      · exact hy z hz
    · rw [if_neg hxy]
      refine List.pairwise_cons.mpr ⟨?_, h⟩
      intro z hz
      rcases List.mem_cons.mp hz with rfl | hz
      · exact not_lt.mp hxy
      · exact le_trans (hy z hz) (not_lt.mp hxy)

/-- The stable sort produces a descending run. -/
theorem sortScoredDesc_sorted :
    ∀ l : List (Int × Article),
    List.Pairwise (fun a b : Int × Article => b.1 ≤ a.1) (sortScoredDesc l)
  | [] => List.Pairwise.nil
  | x :: l => by
    rw [sortScoredDesc, List.foldr_cons]
    exact insertScoredDesc_sorted x _ (sortScoredDesc_sorted l)

/-- Insertion is stable: restricted to any one score, it prepends the new
element to the old run, elements walked past having strictly greater scores. -/
theorem insertScoredDesc_filter (x : Int × Article) (s : Int) :
    ∀ l : List (Int × Article),
    (insertScoredDesc x l).filter (fun p => p.1 == s) =
      if x.1 = s then x :: l.filter (fun p => p.1 == s)
      else l.filter (fun p => p.1 == s)
  | [] => by
    by_cases h : x.1 = s <;> simp [insertScoredDesc, List.filter_cons, h]
  | y :: ys => by
    rw [insertScoredDesc]
    by_cases hxy : x.1 < y.1
    · rw [if_pos hxy]
      by_cases hys : y.1 = s
      · have hxs : ¬x.1 = s := by
          intro he
          rw [he, ← hys] at hxy
          exact lt_irrefl _ hxy
        simp [List.filter_cons, hys, hxs, insertScoredDesc_filter x s ys]
      · simp [List.filter_cons, hys, insertScoredDesc_filter x s ys]
    · rw [if_neg hxy]
      by_cases hxs : x.1 = s <;> simp [List.filter_cons, hxs]

/-- The sort is stable: restricted to any one score, it preserves the input
order of the elements carrying that score. -/
theorem sortScoredDesc_filter (s : Int) :
    ∀ l : List (Int × Article),
    (sortScoredDesc l).filter (fun p => p.1 == s) = l.filter (fun p => p.1 == s)
  | [] => rfl
  | x :: l => by
    have ih := sortScoredDesc_filter s l
    rw [sortScoredDesc] at ih
    rw [sortScoredDesc, List.foldr_cons, insertScoredDesc_filter]
    by_cases hxs : x.1 = s
    · rw [if_pos hxs, ih, List.filter_cons, if_pos (by simp [hxs])]
    · rw [if_neg hxs, ih, List.filter_cons, if_neg (by simp [hxs])]

/-- Claim C5: recommendations are empty when the freshly built preference map
is empty and when no eligible candidate (active, no feedback, not yet
recommended) exists; otherwise the result is exactly the first `limit`
articles of a list that permutes the scored eligible candidates, is sorted by
descending score, and keeps the fetch order within every score (stable ties). -/
theorem get_recommendations_spec (now today : Int) (limit : Nat) (db : List Article) :
    (get_topic_preferences db = [] → get_recommendations now today limit db = ([], db))
    ∧ (get_unseen_articles db = [] → get_recommendations now today limit db = ([], db))
    ∧ (get_topic_preferences db ≠ [] → get_unseen_articles db ≠ [] →
        ∃ l, l.Perm ((get_unseen_articles db).map
              (fun a => (score_article now today a (get_topic_preferences db), a)))
          ∧ List.Pairwise (fun x y : Int × Article => y.1 ≤ x.1) l
          ∧ (∀ s : Int, l.filter (fun p => p.1 == s) =
              ((get_unseen_articles db).map
                (fun a => (score_article now today a (get_topic_preferences db), a))).filter
                (fun p => p.1 == s))
          ∧ (get_recommendations now today limit db).1 =
              (l.take limit).map (fun p => p.2)) := by
  refine ⟨?_, ?_, ?_⟩
  · intro h
    simp [get_recommendations, h]
  · intro h
    by_cases hp : get_topic_preferences db = [] <;>
      simp [get_recommendations, hp, h]
  · intro hp hc
    refine ⟨sortScoredDesc ((get_unseen_articles db).map
        (fun a => (score_article now today a (get_topic_preferences db), a))),
      sortScoredDesc_perm _, sortScoredDesc_sorted _,
      fun s => sortScoredDesc_filter s _, ?_⟩
    have hp2 : (get_topic_preferences db).isEmpty = false := by
      simpa using hp
    have hc2 : (get_unseen_articles db).isEmpty = false := by
      simpa using hc
    simp [get_recommendations, hp2, hc2]

/-- Witness for C5: one liked Economy row and one eligible Economy candidate
produce the candidate as the single recommendation, through the sorted list. -/
theorem get_recommendations_spec_witness :
    ∃ l, l.Perm ((get_unseen_articles
          [{ id := 1, topic := some "Economy", feedback := some "up", feedback_at := some 10 },
           { id := 2, topic := some "Economy", published_date := some 0 }]).map
          (fun a => (score_article 86400 0 a (get_topic_preferences
            [{ id := 1, topic := some "Economy", feedback := some "up", feedback_at := some 10 },
             { id := 2, topic := some "Economy", published_date := some 0 }]), a)))
      ∧ List.Pairwise (fun x y : Int × Article => y.1 ≤ x.1) l
      ∧ (∀ s : Int, l.filter (fun p => p.1 == s) =
          ((get_unseen_articles
            [{ id := 1, topic := some "Economy", feedback := some "up", feedback_at := some 10 },
             { id := 2, topic := some "Economy", published_date := some 0 }]).map
            (fun a => (score_article 86400 0 a (get_topic_preferences
              [{ id := 1, topic := some "Economy", feedback := some "up", feedback_at := some 10 },
               { id := 2, topic := some "Economy", published_date := some 0 }]), a))).filter
            (fun p => p.1 == s))
      ∧ (get_recommendations 86400 0 5
          [{ id := 1, topic := some "Economy", feedback := some "up", feedback_at := some 10 },
           { id := 2, topic := some "Economy", published_date := some 0 }]).1 =
          (l.take 5).map (fun p => p.2) :=
  (get_recommendations_spec 86400 0 5
    [{ id := 1, topic := some "Economy", feedback := some "up", feedback_at := some 10 },
     { id := 2, topic := some "Economy", published_date := some 0 }]).2.2
    (by decide) (by decide)

/-- A non-empty conditional-update match set contains a row with the claimed
id still in the source state. -/
theorem casRows_ne_nil {fs : String} {i : Nat} {db : List Article}
    (h : casRows fs i db ≠ []) : ∃ b ∈ db, b.id = i ∧ b.status = fs := by
  rcases List.exists_mem_of_ne_nil _ h with ⟨b, hb⟩
  have hb2 := List.mem_filter.mp hb
  refine ⟨b, hb2.1, ?_⟩
  have := hb2.2
  simp at this
  exact this

/-- One scheduler step preserves the mutual-exclusion invariant when the two
transition states differ. -/
theorem sysStep_inv {n : Nat} (fs ts : String) (hne : fs ≠ ts) (s : SysState n)
    (h : ClaimInv fs s) (u : Fin n) : ClaimInv fs (sysStep fs ts s u) := by
  cases hu : s.workers u with
  | start =>
    cases hsel : selectByStatus fs s.db with
    | none =>
      intro w a hw
      simp only [sysStep, workerStep, hu, hsel] at hw ⊢
      by_cases hwu : w = u
      · rw [if_pos hwu] at hw
        cases hw
      · rw [if_neg hwu] at hw
        refine ⟨(h w a hw).1, ?_⟩
        intro v b hvw hv
        by_cases hvu : v = u
        · rw [if_pos hvu] at hv
          cases hv
        · rw [if_neg hvu] at hv
          exact (h w a hw).2 v b hvw hv
    | some a0 =>
      intro w a hw
      simp only [sysStep, workerStep, hu, hsel] at hw ⊢
      by_cases hwu : w = u
      · rw [if_pos hwu] at hw
        cases hw
      · rw [if_neg hwu] at hw
        refine ⟨(h w a hw).1, ?_⟩
        intro v b hvw hv
        by_cases hvu : v = u
        · rw [if_pos hvu] at hv
          cases hv
        · rw [if_neg hvu] at hv
          exact (h w a hw).2 v b hvw hv
  | selected a0 =>
    by_cases hemp : (casRows fs a0.id s.db).isEmpty
    · intro w a hw
      simp only [sysStep, workerStep, hu, if_pos hemp] at hw ⊢
      by_cases hwu : w = u
      · rw [if_pos hwu] at hw
        cases hw
      · rw [if_neg hwu] at hw
        refine ⟨(h w a hw).1, ?_⟩
        intro v b hvw hv
        by_cases hvu : v = u
        · rw [if_pos hvu] at hv
          cases hv
        · rw [if_neg hvu] at hv
          exact (h w a hw).2 v b hvw hv
    · have hex : ∃ b ∈ s.db, b.id = a0.id ∧ b.status = fs :=
        casRows_ne_nil (by simpa [List.isEmpty_iff] using hemp)
      rcases hex with ⟨r0, hr0m, hr0i, hr0s⟩
      have hcontra : ∀ v b, s.workers v = .done (some b) → b.id ≠ a0.id := by
        intro v b hv heq
        exact (h v b hv).1 r0 hr0m (by rw [hr0i, heq]) hr0s
      intro w a hw
      simp only [sysStep, workerStep, hu, if_neg hemp] at hw ⊢
      by_cases hwu : w = u
      · rw [if_pos hwu] at hw
        have haa : a0 = a := Option.some.inj (WorkerState.done.inj hw)
        subst haa
        constructor
        · intro b hb hbid
          rcases List.mem_map.mp hb with ⟨b0, hb0, rfl⟩
          by_cases hcond : (b0.id == a0.id && b0.status == fs) = true
          · rw [if_pos hcond]
            simp only []
            intro hts
            exact hne hts.symm
          · rw [if_neg hcond]
            have hid : b0.id = a0.id := by
              rw [if_neg hcond] at hbid
              exact hbid
            simp [hid] at hcond
            exact hcond
        · intro v b hvw hv
          have hvu : ¬v = u := fun he => hvw (he.trans hwu.symm)
          rw [if_neg hvu] at hv
          exact hcontra v b hv
      · rw [if_neg hwu] at hw
        have hold := h w a hw
        constructor
        · intro b hb hbid
          rcases List.mem_map.mp hb with ⟨b0, hb0, rfl⟩
          have hid : b0.id = a.id := by
            by_cases hc2 : (b0.id == a0.id && b0.status == fs) = true
            · rw [if_pos hc2] at hbid
              exact hbid
            · rw [if_neg hc2] at hbid
              exact hbid
          have hst : b0.status ≠ fs := hold.1 b0 hb0 hid
          have hc2 : ¬(b0.id == a0.id && b0.status == fs) = true := by
            simp [hst]
          rw [if_neg hc2]
          exact hst
        · intro v b hvw hv
          by_cases hvu : v = u
          · rw [if_pos hvu] at hv
            have hba : a0 = b := Option.some.inj (WorkerState.done.inj hv)
            subst hba
            intro heq
            exact hcontra w a hw heq.symm
          · rw [if_neg hvu] at hv
            exact hold.2 v b hvw hv
  | done r =>
    intro w a hw
    simp only [sysStep, workerStep, hu] at hw ⊢
    by_cases hwu : w = u
    · rw [if_pos hwu] at hw
      have : s.workers w = .done (some a) := by
        rw [hwu, hu, hw]
      refine ⟨(h w a this).1, ?_⟩
      intro v b hvw hv
      by_cases hvu : v = u
      · rw [if_pos hvu] at hv
        have hv2 : s.workers v = .done (some b) := by
          rw [hvu, hu, hv]
        exact (h w a this).2 v b hvw hv2
      · rw [if_neg hvu] at hv
        exact (h w a this).2 v b hvw hv
    · rw [if_neg hwu] at hw
      refine ⟨(h w a hw).1, ?_⟩
      intro v b hvw hv
      by_cases hvu : v = u
      · rw [if_pos hvu] at hv
        have hv2 : s.workers v = .done (some b) := by
          rw [hvu, hu, hv]
        exact (h w a hw).2 v b hvw hv2
      · rw [if_neg hvu] at hv
        exact (h w a hw).2 v b hvw hv

/-- Any interleaving preserves the mutual-exclusion invariant. -/
theorem sysRun_inv {n : Nat} (fs ts : String) (hne : fs ≠ ts) :
    ∀ (sched : List (Fin n)) (s : SysState n),
    ClaimInv fs s → ClaimInv fs (sysRun fs ts s sched)
  | [], _, h => h
  | u :: sched, s, h =>
    sysRun_inv fs ts hne sched (sysStep fs ts s u) (sysStep_inv fs ts hne s h u)

/-- Claim C1 as amended: for two distinct states `fs ≠ ts`, a claim succeeds
exactly when a row with the selected article's id still has status `fs` at the
moment of the conditional update, a successful claim moves exactly those rows
to `ts` and leaves every other row unchanged, and in any interleaving of
concurrently executing claim calls no article is claimed by two callers. -/
theorem claim_at_most_one (fs ts : String) (hne : fs ≠ ts) :
    (∀ (dbx : List Article) (a : Article),
        ((workerStep fs ts dbx (.selected a)).2 = .done (some a) ↔
          ∃ b ∈ dbx, b.id = a.id ∧ b.status = fs)
        ∧ List.Forall₂ (fun b c : Article =>
            ((b.id = a.id ∧ b.status = fs) → c = { b with status := ts })
            ∧ (¬(b.id = a.id ∧ b.status = fs) → c = b))
          dbx (workerStep fs ts dbx (.selected a)).1)
    ∧ ∀ (db : List Article) (n : Nat) (sched : List (Fin n)) (w1 w2 : Fin n)
        (a1 a2 : Article),
        (sysRun fs ts (initSys db n) sched).workers w1 = .done (some a1) →
        (sysRun fs ts (initSys db n) sched).workers w2 = .done (some a2) →
        w1 ≠ w2 → a1.id ≠ a2.id := by
  constructor
  · intro dbx a
    constructor
    · constructor
      · intro hdone
        by_cases hemp : (casRows fs a.id dbx).isEmpty
        · rw [workerStep, if_pos hemp] at hdone
          cases hdone
        · exact casRows_ne_nil (by simpa [List.isEmpty_iff] using hemp)
      · rintro ⟨b, hb, hbid, hbs⟩
        have hmem : b ∈ casRows fs a.id dbx :=
          List.mem_filter.mpr ⟨hb, by simp [hbid, hbs]⟩
        have hemp : ¬(casRows fs a.id dbx).isEmpty := by
          rw [List.isEmpty_iff]
          intro he
          rw [he] at hmem
          cases hmem
        rw [workerStep, if_neg hemp]
    · by_cases hemp : (casRows fs a.id dbx).isEmpty
      · rw [workerStep, if_pos hemp]
        refine List.forall₂_same.mpr ?_
        intro b hb
        have hnc : ¬(b.id = a.id ∧ b.status = fs) := by
          rintro ⟨h1, h2⟩
          have hmem : b ∈ casRows fs a.id dbx :=
            List.mem_filter.mpr ⟨hb, by simp [h1, h2]⟩
          rw [List.isEmpty_iff] at hemp
          rw [hemp] at hmem
          cases hmem
        exact ⟨fun hc => absurd hc hnc, fun _ => rfl⟩
      · rw [workerStep, if_neg hemp]
        refine forall2_self_map _ _ dbx ?_
        intro b _
        constructor
        · rintro ⟨h1, h2⟩
          simp [h1, h2]
        · intro hnc
          have hb2 : ¬(b.id == a.id && b.status == fs) = true := by
            simpa using hnc
          rw [if_neg hb2]
  · intro db n sched w1 w2 a1 a2 h1 h2 hw
    have hinv : ClaimInv fs (sysRun fs ts (initSys db n) sched) := by
      refine sysRun_inv fs ts hne sched (initSys db n) ?_
      intro w a hwa
      cases hwa
    exact fun heq => (hinv w1 a1 h1).2 w2 a2 (fun he => hw he.symm) h2 heq.symm

/-- Counterexample to C1 as frozen: with `from_state = to_state` ("new" to
"new"), two interleaved claim calls both successfully claim the same article,
because the first successful conditional update leaves the status equal to
`from_state`. -/
theorem claim_same_states_double_claim :
    (sysRun "new" "new" (initSys [{ id := 1 }] 2) [0, 1, 0, 1]).workers 0 =
        .done (some { id := 1 })
    ∧ (sysRun "new" "new" (initSys [{ id := 1 }] 2) [0, 1, 0, 1]).workers 1 =
        .done (some { id := 1 })
    ∧ (0 : Fin 2) ≠ 1 := by
  refine ⟨by decide, by decide, by decide⟩

/-- Witness for C1 (amended): the success condition and update effect of the
conditional update, evaluated on a one-row table claimed from "new" to
"scraping". -/
theorem claim_at_most_one_witness :
    ((workerStep "new" "scraping" [({ id := 1 } : Article)]
        (.selected { id := 1 })).2 = .done (some { id := 1 }) ↔
      ∃ b ∈ [({ id := 1 } : Article)], b.id = ({ id := 1 } : Article).id
        ∧ b.status = "new")
    ∧ List.Forall₂ (fun b c : Article =>
        ((b.id = ({ id := 1 } : Article).id ∧ b.status = "new") →
          c = { b with status := "scraping" })
        ∧ (¬(b.id = ({ id := 1 } : Article).id ∧ b.status = "new") → c = b))
      [({ id := 1 } : Article)]
      (workerStep "new" "scraping" [({ id := 1 } : Article)]
        (.selected { id := 1 })).1 :=
  (claim_at_most_one "new" "scraping" (by decide)).1 [{ id := 1 }] { id := 1 }

/-- Claim C8: when a claimed article's collaborator fails with a declared
error, the stage runner moves exactly that article to `failed`, persists none
of the stage's output fields (scrape: title, content, published date;
translate/classify: translations, summary, topic, sentiment, urgency), leaves
every other row untouched, and the error is not propagated — the scrape
runner's loop continues with the updated table. This covers both runners. -/
theorem stage_failure_spec :
    (∀ (scraper : String → Except String (String × String × Int))
        (db db1 : List Article) (a : Article) (e : String),
        process_one_article_status "new" "scraping" db = (some a, db1) →
        scraper a.article_url = .error e →
        scrape_step scraper db = some (markFailed a.id db1)
        ∧ List.Forall₂ (fun b c : Article =>
            c.id = b.id ∧ c.title_de = b.title_de ∧ c.content_de = b.content_de ∧
            c.published_date = b.published_date ∧
            (b.id = a.id → c.status = "failed") ∧ (b.id ≠ a.id → c = b))
          db1 (markFailed a.id db1)
        ∧ ∀ fuel, scrape_all_new_articles scraper (fuel + 1) db =
            scrape_all_new_articles scraper fuel (markFailed a.id db1))
    ∧ (∀ (tr : Option String → Option String → Except String Translation)
        (cl : String → String → Except String Classification)
        (db db1 : List Article) (a : Article) (e : String),
        process_one_article_status "scrapped" "translating" db = (some a, db1) →
        (tr a.title_de a.content_de = .error e ∨
          ∃ t, tr a.title_de a.content_de = .ok t ∧
            cl t.title_en t.content_en = .error e) →
        process_steps_once tr cl db = some (markFailed a.id db1)
        ∧ List.Forall₂ (fun b c : Article =>
            c.id = b.id ∧ c.title_en = b.title_en ∧ c.content_en = b.content_en ∧
            c.summary_en = b.summary_en ∧ c.topic = b.topic ∧
            c.sentiment = b.sentiment ∧ c.urgency = b.urgency ∧
            (b.id = a.id → c.status = "failed") ∧ (b.id ≠ a.id → c = b))
          db1 (markFailed a.id db1)) := by
  have hfa2 : ∀ (i : Nat) (db1 : List Article),
      List.Forall₂ (fun b c : Article =>
        c.id = b.id ∧ c.title_de = b.title_de ∧ c.content_de = b.content_de ∧
        c.published_date = b.published_date ∧ c.title_en = b.title_en ∧
        c.content_en = b.content_en ∧ c.summary_en = b.summary_en ∧
        c.topic = b.topic ∧ c.sentiment = b.sentiment ∧ c.urgency = b.urgency ∧
        (b.id = i → c.status = "failed") ∧ (b.id ≠ i → c = b))
      db1 (markFailed i db1) := by
    intro i db1
    refine forall2_self_map _ _ db1 ?_
    intro b _
    by_cases hb : b.id = i
    · simp [markFailed, hb]
    · simp [markFailed, hb]
  constructor
  · intro scraper db db1 a e hclaim hscr
    refine ⟨?_, ?_, ?_⟩
    · simp only [scrape_step, hclaim, hscr]
    · have h := hfa2 a.id db1
      exact h.imp (fun x y hb => ⟨hb.1, hb.2.1, hb.2.2.1, hb.2.2.2.1,
        hb.2.2.2.2.2.2.2.2.2.2.1, hb.2.2.2.2.2.2.2.2.2.2.2⟩)
    · intro fuel
      have hstep : scrape_step scraper db = some (markFailed a.id db1) := by
        simp only [scrape_step, hclaim, hscr]
      simp only [scrape_all_new_articles, hstep]
  · intro tr cl db db1 a e hclaim herr
    have hstep : process_steps_once tr cl db = some (markFailed a.id db1) := by
      rcases herr with herr | ⟨t, hok, herr⟩
      · simp only [process_steps_once, hclaim, herr]
      · simp only [process_steps_once, hclaim, hok, herr]
    refine ⟨hstep, ?_⟩
    have h := hfa2 a.id db1
    exact h.imp (fun x y hb => ⟨hb.1, hb.2.2.2.2.1, hb.2.2.2.2.2.1,
      hb.2.2.2.2.2.2.1, hb.2.2.2.2.2.2.2.1, hb.2.2.2.2.2.2.2.2.1,
      hb.2.2.2.2.2.2.2.2.2.1, hb.2.2.2.2.2.2.2.2.2.2.1,
      hb.2.2.2.2.2.2.2.2.2.2.2⟩)

/-- Witness for C8: a failing scraper on a one-row `new` table marks the
claimed row `failed` and the loop continues on the updated table. -/
theorem stage_failure_spec_witness :
    scrape_step (fun _ => Except.error "boom") [({ id := 1 } : Article)] =
      some (markFailed 1 (applyCas "new" "scraping" 1 [({ id := 1 } : Article)]))
    ∧ List.Forall₂ (fun b c : Article =>
        c.id = b.id ∧ c.title_de = b.title_de ∧ c.content_de = b.content_de ∧
        c.published_date = b.published_date ∧
        (b.id = ({ id := 1 } : Article).id → c.status = "failed")
        ∧ (b.id ≠ ({ id := 1 } : Article).id → c = b))
      (applyCas "new" "scraping" 1 [({ id := 1 } : Article)])
      (markFailed 1 (applyCas "new" "scraping" 1 [({ id := 1 } : Article)]))
    ∧ ∀ fuel, scrape_all_new_articles (fun _ => Except.error "boom") (fuel + 1)
        [({ id := 1 } : Article)] =
      scrape_all_new_articles (fun _ => Except.error "boom") fuel
        (markFailed 1 (applyCas "new" "scraping" 1 [({ id := 1 } : Article)])) :=
  (stage_failure_spec).1 (fun _ => Except.error "boom") [{ id := 1 }]
    (applyCas "new" "scraping" 1 [({ id := 1 } : Article)]) { id := 1 } "boom"
    (by decide) rfl

/-- An eligible candidate is a stored row that is active, has no feedback and
has never been recommended. -/
theorem mem_unseen {a : Article} {db : List Article}
    (h : a ∈ get_unseen_articles db) :
    a ∈ db ∧ a.active = true ∧ a.feedback = none ∧ a.recommended_at = none := by
  have h2 := List.mem_filter.mp h
  refine ⟨h2.1, ?_⟩
  have h3 := h2.2
  simp only [Bool.and_eq_true, beq_iff_eq] at h3
  exact ⟨h3.1.1, h3.1.2, h3.2⟩

/-- Every returned recommendation is one of the eligible candidates. -/
theorem recs_sub_unseen {now today : Int} {limit : Nat} {db : List Article}
    {a : Article} (h : a ∈ (get_recommendations now today limit db).1) :
    a ∈ get_unseen_articles db := by
  by_cases hp : (get_topic_preferences db).isEmpty
  · simp [get_recommendations, hp] at h
  · by_cases hc : (get_unseen_articles db).isEmpty
    · simp [get_recommendations, hp, hc] at h
    · simp only [get_recommendations, hp, hc, Bool.false_eq_true, if_false] at h
      rcases List.mem_map.mp h with ⟨p, hp2, rfl⟩
      have hp3 : p ∈ sortScoredDesc ((get_unseen_articles db).map
          (fun a => (score_article now today a (get_topic_preferences db), a))) :=
        List.take_subset _ _ hp2
      have hp4 := (sortScoredDesc_perm _).mem_iff.mp hp3
      rcases List.mem_map.mp hp4 with ⟨b, hb, rfl⟩
      exact hb

/-- The per-article update loop of `mark_as_recommended` is the single map
setting `recommended_at` on every row whose id is among the given articles. -/
theorem markFoldl_eq_map (now : Int) : ∀ (recs db : List Article),
    recs.foldl (fun acc a => acc.map (fun b =>
      if b.id == a.id then { b with recommended_at := some now } else b)) db =
    db.map (fun b => if recs.any (fun a => b.id == a.id)
      then { b with recommended_at := some now } else b)
  | [], db => by simp
  | a :: recs, db => by
    rw [List.foldl_cons, markFoldl_eq_map now recs _, List.map_map]
    refine List.map_congr_left ?_
    intro b _
    by_cases c1 : (b.id == a.id) = true
    · by_cases c2 : (recs.any (fun x => b.id == x.id)) = true
      · simp [Function.comp, c1, c2]
      · simp [Function.comp, c1, c2]
    · by_cases c2 : (recs.any (fun x => b.id == x.id)) = true
      · simp [Function.comp, c1, c2]
      · simp [Function.comp, c1, c2]

/-- Normal form of `mark_as_recommended` as one map over the table. -/
theorem mark_rows (now : Int) (db recs : List Article) :
    mark_as_recommended now db recs = db.map (fun b =>
      if recs.any (fun a => b.id == a.id)
      then { b with recommended_at := some now } else b) := by
  rw [mark_as_recommended]
  by_cases he : recs.isEmpty
  · have h2 : recs = [] := List.isEmpty_iff.mp he
    subst h2
    simp
  · rw [if_neg he, markFoldl_eq_map]

/-- A map whose function preserves ids and preserves a property on the rows of
a given id preserves existence of that id and the property on its rows. -/
theorem idprop_map (P : Article → Prop) (f : Article → Article)
    (db : List Article) (i : Nat)
    (hid : ∀ b, (f b).id = b.id)
    (hP : ∀ b ∈ db, b.id = i → P b → P (f b))
    (hex : ∃ b ∈ db, b.id = i) (hall : ∀ b ∈ db, b.id = i → P b) :
    (∃ b ∈ db.map f, b.id = i) ∧ ∀ b ∈ db.map f, b.id = i → P b := by
  constructor
  · rcases hex with ⟨b, hb, hbi⟩
    exact ⟨f b, List.mem_map_of_mem f hb, (hid b).trans hbi⟩
  · intro b hb hbi
    rcases List.mem_map.mp hb with ⟨b0, hb0, rfl⟩
    have hb0i : b0.id = i := (hid b0).symm.trans hbi
    exact hP b0 hb0 hb0i (hall b0 hb0 hb0i)

/-- The table after `get_recommendations` is the input table with the returned
articles marked. -/
theorem get_rec_snd (now today : Int) (limit : Nat) (db : List Article) :
    (get_recommendations now today limit db).2 =
      mark_as_recommended now db (get_recommendations now today limit db).1 := by
  by_cases hp : (get_topic_preferences db).isEmpty
  · simp [get_recommendations, hp, mark_as_recommended]
  · by_cases hc : (get_unseen_articles db).isEmpty
    · simp [get_recommendations, hp, hc, mark_as_recommended]
    · simp [get_recommendations, hp, hc]

/-- The conditional-update effect of a claim call on the table: unchanged, or
the compare-and-swap applied to the selected id. -/
theorem claim_snd_cases (fs ts : String) (db : List Article) :
    (process_one_article_status fs ts db).2 = db ∨
    ∃ i, (process_one_article_status fs ts db).2 = applyCas fs ts i db := by
  cases hsel : selectByStatus fs db with
  | none => left; simp [process_one_article_status, hsel]
  | some a0 =>
    right
    refine ⟨a0.id, ?_⟩
    simp only [process_one_article_status, hsel]
    by_cases hemp : (casRows fs a0.id db).isEmpty
    · rw [if_pos hemp]
    · rw [if_neg hemp]

/-- Once every row of an id is marked with a recommendation time, every
well-formed operation keeps those rows marked with that same time. -/
theorem recMarked_applyOp (op : Op) (db : List Article) (i : Nat) (t : Int)
    (hok : opOk db op)
    (hex : ∃ b ∈ db, b.id = i)
    (hall : ∀ b ∈ db, b.id = i → b.recommended_at = some t) :
    (∃ b ∈ applyOp op db, b.id = i)
    ∧ ∀ b ∈ applyOp op db, b.id = i → b.recommended_at = some t := by
  cases op with
  | upsert url cat fid =>
    simp only [applyOp, upsertArticle]
    cases hf : db.find? (fun a => a.article_url == url) with
    | some a0 =>
      refine idprop_map _ _ db i ?_ ?_ hex hall
      · intro b
        by_cases hb : (b.article_url == url) = true <;> simp [hb]
      · intro b _ _ hPb
        by_cases hb : (b.article_url == url) = true <;> simpa [hb] using hPb
    | none =>
      have hfid : ∀ b ∈ db, b.id ≠ fid := by
        rcases hok with h1 | h2
        · rw [hf] at h1
          cases h1
        · exact h2
      constructor
      · rcases hex with ⟨b, hb, hbi⟩
        exact ⟨b, List.mem_append_left _ hb, hbi⟩
      · intro b hb hbi
        rcases List.mem_append.mp hb with hb | hb
        · exact hall b hb hbi
        · exfalso
          simp at hb
          rcases hex with ⟨b0, hb0, hb0i⟩
          have : b.id = fid := by rw [hb]
          exact hfid b0 hb0 (hb0i.trans (hbi ▸ this))
  | claim fs ts =>
    simp only [applyOp]
    rcases claim_snd_cases fs ts db with hcl | ⟨j, hcl⟩
    · rw [hcl]
      exact ⟨hex, hall⟩
    · rw [hcl, applyCas]
      refine idprop_map _ _ db i ?_ ?_ hex hall
      · intro b
        by_cases hb : (b.id == j && b.status == fs) = true <;> simp [hb]
      · intro b _ _ hPb
        by_cases hb : (b.id == j && b.status == fs) = true <;> simpa [hb] using hPb
  | scrapeOk j ti c p =>
    simp only [applyOp, saveScrapeResult]
    refine idprop_map _ _ db i ?_ ?_ hex hall
    · intro b
      by_cases hb : (b.id == j) = true <;> simp [hb]
    · intro b _ _ hPb
      by_cases hb : (b.id == j) = true <;> simpa [hb] using hPb
  | stageFailed j =>
    simp only [applyOp, markFailed]
    refine idprop_map _ _ db i ?_ ?_ hex hall
    · intro b
      by_cases hb : (b.id == j) = true <;> simp [hb]
    · intro b _ _ hPb
      by_cases hb : (b.id == j) = true <;> simpa [hb] using hPb
  | translateOk j tr cl =>
    simp only [applyOp, save_translation_and_classification]
    refine idprop_map _ _ db i ?_ ?_ hex hall
    · intro b
      by_cases hb : (b.id == j) = true <;> simp [hb]
    · intro b _ _ hPb
      by_cases hb : (b.id == j) = true <;> simpa [hb] using hPb
  | thumbsUp n j =>
    simp only [applyOp, handle_thumbs_up]
    refine idprop_map _ _ db i ?_ ?_ hex hall
    · intro b
      by_cases hb : (b.id == j) = true <;> simp [hb]
    · intro b _ _ hPb
      by_cases hb : (b.id == j) = true <;> simpa [hb] using hPb
  | thumbsDown n j =>
    simp only [applyOp, handle_thumbs_down]
    refine idprop_map _ _ db i ?_ ?_ hex hall
    · intro b
      by_cases hb : (b.id == j) = true <;> simp [hb]
    · intro b _ _ hPb
      by_cases hb : (b.id == j) = true <;> simpa [hb] using hPb
  | recommend n2 t2 l2 =>
    simp only [applyOp]
    rw [get_rec_snd, mark_rows]
    refine idprop_map _ _ db i ?_ ?_ hex hall
    · intro b
      by_cases hb : ((get_recommendations n2 t2 l2 db).1.any
          (fun a => b.id == a.id)) = true <;> simp [hb]
    · intro b hb hbi hPb
      by_cases hcond : ((get_recommendations n2 t2 l2 db).1.any
          (fun a => b.id == a.id)) = true
      · exfalso
        rcases List.any_eq_true.mp hcond with ⟨a, ha, hba⟩
        have ha2 := mem_unseen (recs_sub_unseen ha)
        have hai : a.id = i := by
          simp only [beq_iff_eq] at hba
          rw [← hba]
          exact hbi
        have hnone := ha2.2.2.2
        have hsome := hall a ha2.1 hai
        rw [hnone] at hsome
        cases hsome
      · simpa [hcond] using hPb

/-- Once every row of an id is inactive, every well-formed operation keeps
those rows inactive. -/
theorem inactive_applyOp (op : Op) (db : List Article) (i : Nat)
    (hok : opOk db op)
    (hex : ∃ b ∈ db, b.id = i)
    (hall : ∀ b ∈ db, b.id = i → b.active = false) :
    (∃ b ∈ applyOp op db, b.id = i)
    ∧ ∀ b ∈ applyOp op db, b.id = i → b.active = false := by
  cases op with
  | upsert url cat fid =>
    simp only [applyOp, upsertArticle]
    cases hf : db.find? (fun a => a.article_url == url) with
    | some a0 =>
      refine idprop_map _ _ db i ?_ ?_ hex hall
      · intro b
        by_cases hb : (b.article_url == url) = true <;> simp [hb]
      · intro b _ _ hPb
        by_cases hb : (b.article_url == url) = true <;> simpa [hb] using hPb
    | none =>
      have hfid : ∀ b ∈ db, b.id ≠ fid := by
        rcases hok with h1 | h2
        · rw [hf] at h1
          cases h1
        · exact h2
      constructor
      · rcases hex with ⟨b, hb, hbi⟩
        exact ⟨b, List.mem_append_left _ hb, hbi⟩
      · intro b hb hbi
        rcases List.mem_append.mp hb with hb | hb
        · exact hall b hb hbi
        · exfalso
          simp at hb
          rcases hex with ⟨b0, hb0, hb0i⟩
          have : b.id = fid := by rw [hb]
          exact hfid b0 hb0 (hb0i.trans (hbi ▸ this))
  | claim fs ts =>
    simp only [applyOp]
    rcases claim_snd_cases fs ts db with hcl | ⟨j, hcl⟩
    · rw [hcl]
      exact ⟨hex, hall⟩
    · rw [hcl, applyCas]
      refine idprop_map _ _ db i ?_ ?_ hex hall
      · intro b
        by_cases hb : (b.id == j && b.status == fs) = true <;> simp [hb]
      · intro b _ _ hPb
        by_cases hb : (b.id == j && b.status == fs) = true <;> simpa [hb] using hPb
  | scrapeOk j ti c p =>
    simp only [applyOp, saveScrapeResult]
    refine idprop_map _ _ db i ?_ ?_ hex hall
    · intro b
      by_cases hb : (b.id == j) = true <;> simp [hb]
    · intro b _ _ hPb
      by_cases hb : (b.id == j) = true <;> simpa [hb] using hPb
  | stageFailed j =>
    simp only [applyOp, markFailed]
    refine idprop_map _ _ db i ?_ ?_ hex hall
    · intro b
      by_cases hb : (b.id == j) = true <;> simp [hb]
    · intro b _ _ hPb
      by_cases hb : (b.id == j) = true <;> simpa [hb] using hPb
  | translateOk j tr cl =>
    simp only [applyOp, save_translation_and_classification]
    refine idprop_map _ _ db i ?_ ?_ hex hall
    · intro b
      by_cases hb : (b.id == j) = true <;> simp [hb]
    · intro b _ _ hPb
      by_cases hb : (b.id == j) = true <;> simpa [hb] using hPb
  | thumbsUp n j =>
    simp only [applyOp, handle_thumbs_up]
    refine idprop_map _ _ db i ?_ ?_ hex hall
    · intro b
      by_cases hb : (b.id == j) = true <;> simp [hb]
    · intro b _ _ hPb
      by_cases hb : (b.id == j) = true <;> simpa [hb] using hPb
  | thumbsDown n j =>
    simp only [applyOp, handle_thumbs_down]
    refine idprop_map _ _ db i ?_ ?_ hex hall
    · intro b
      by_cases hb : (b.id == j) = true <;> simp [hb]
    · intro b _ _ hPb
      by_cases hb : (b.id == j) = true
      · simp [hb]
      · simpa [hb] using hPb
  | recommend n2 t2 l2 =>
    simp only [applyOp]
    rw [get_rec_snd, mark_rows]
    refine idprop_map _ _ db i ?_ ?_ hex hall
    · intro b
      by_cases hb : ((get_recommendations n2 t2 l2 db).1.any
          (fun a => b.id == a.id)) = true <;> simp [hb]
    · intro b _ _ hPb
      by_cases hb : ((get_recommendations n2 t2 l2 db).1.any
          (fun a => b.id == a.id)) = true <;> simpa [hb] using hPb

/-- Marked-with-a-time is preserved along any well-formed trace. -/
theorem recMarked_runTrace : ∀ (ops : List Op) (db : List Article) (i : Nat) (t : Int),
    ValidTrace ops db → (∃ b ∈ db, b.id = i) →
    (∀ b ∈ db, b.id = i → b.recommended_at = some t) →
    (∃ b ∈ runTrace ops db, b.id = i)
    ∧ ∀ b ∈ runTrace ops db, b.id = i → b.recommended_at = some t
  | [], _, _, _, _, hex, hall => ⟨hex, hall⟩
  | op :: ops, db, i, t, hv, hex, hall => by
    have h1 := recMarked_applyOp op db i t hv.1 hex hall
    rw [runTrace, List.foldl_cons]
    exact recMarked_runTrace ops (applyOp op db) i t hv.2 h1.1 h1.2

/-- Inactivity is preserved along any well-formed trace. -/
theorem inactive_runTrace : ∀ (ops : List Op) (db : List Article) (i : Nat),
    ValidTrace ops db → (∃ b ∈ db, b.id = i) →
    (∀ b ∈ db, b.id = i → b.active = false) →
    (∃ b ∈ runTrace ops db, b.id = i)
    ∧ ∀ b ∈ runTrace ops db, b.id = i → b.active = false
  | [], _, _, _, hex, hall => ⟨hex, hall⟩
  | op :: ops, db, i, hv, hex, hall => by
    have h1 := inactive_applyOp op db i hv.1 hex hall
    rw [runTrace, List.foldl_cons]
    exact inactive_runTrace ops (applyOp op db) i hv.2 h1.1 h1.2

/-- Claim C6: every article returned by `get_recommendations` was eligible
(`recommended_at` unset) and has `recommended_at` set to the call time in the
resulting table; along any well-formed operation sequence the mark is never
changed or cleared, and no later `get_recommendations` call ever returns an
article with that id again. -/
theorem recommendations_marked_once (now today : Int) (limit : Nat)
    (db : List Article) (a : Article)
    (ha : a ∈ (get_recommendations now today limit db).1) :
    a.recommended_at = none
    ∧ (∃ b ∈ (get_recommendations now today limit db).2, b.id = a.id)
    ∧ (∀ b ∈ (get_recommendations now today limit db).2, b.id = a.id →
        b.recommended_at = some now)
    ∧ (∀ ops, ValidTrace ops (get_recommendations now today limit db).2 →
        (∀ b ∈ runTrace ops (get_recommendations now today limit db).2,
          b.id = a.id → b.recommended_at = some now)
        ∧ ∀ (n2 t2 : Int) (l2 : Nat) (a2 : Article),
            a2 ∈ (get_recommendations n2 t2 l2
              (runTrace ops (get_recommendations now today limit db).2)).1 →
            a2.id ≠ a.id) := by
  have hu := mem_unseen (recs_sub_unseen ha)
  have hmark : (∃ b ∈ (get_recommendations now today limit db).2, b.id = a.id)
      ∧ ∀ b ∈ (get_recommendations now today limit db).2, b.id = a.id →
        b.recommended_at = some now := by
    rw [get_rec_snd, mark_rows]
    constructor
    · refine ⟨_, List.mem_map_of_mem _ hu.1, ?_⟩
      by_cases hc : ((get_recommendations now today limit db).1.any
          (fun x => a.id == x.id)) = true <;> simp [hc]
    · intro b hb hbi
      rcases List.mem_map.mp hb with ⟨b0, hb0, rfl⟩
      have hb0i : b0.id = a.id := by
        by_cases hc : ((get_recommendations now today limit db).1.any
            (fun x => b0.id == x.id)) = true
        · rw [if_pos hc] at hbi
          exact hbi
        · rw [if_neg hc] at hbi
          exact hbi
      have hc : ((get_recommendations now today limit db).1.any
          (fun x => b0.id == x.id)) = true :=
        List.any_eq_true.mpr ⟨a, ha, by simp [hb0i]⟩
      simp [hc]
  refine ⟨hu.2.2.2, hmark.1, hmark.2, ?_⟩
  intro ops hv
  have htr := recMarked_runTrace ops (get_recommendations now today limit db).2
    a.id now hv hmark.1 hmark.2
  refine ⟨htr.2, ?_⟩
  intro n2 t2 l2 a2 ha2 heq
  have hu2 := mem_unseen (recs_sub_unseen ha2)
  have hsome := htr.2 a2 hu2.1 heq
  rw [hu2.2.2.2] at hsome
  cases hsome

/-- Witness for C6: a table with one liked Economy row and one eligible
candidate; the returned candidate is marked and the guarantees hold. -/
theorem recommendations_marked_once_witness :
    ({ id := 2, topic := some "Economy", published_date := some 0 } : Article).recommended_at = none
    ∧ (∃ b ∈ (get_recommendations 86400 0 5
        [{ id := 1, topic := some "Economy", feedback := some "up", feedback_at := some 10 },
         { id := 2, topic := some "Economy", published_date := some 0 }]).2,
        b.id = ({ id := 2, topic := some "Economy", published_date := some 0 } : Article).id)
    ∧ (∀ b ∈ (get_recommendations 86400 0 5
        [{ id := 1, topic := some "Economy", feedback := some "up", feedback_at := some 10 },
         { id := 2, topic := some "Economy", published_date := some 0 }]).2,
        b.id = ({ id := 2, topic := some "Economy", published_date := some 0 } : Article).id →
        b.recommended_at = some 86400)
    ∧ (∀ ops, ValidTrace ops (get_recommendations 86400 0 5
        [{ id := 1, topic := some "Economy", feedback := some "up", feedback_at := some 10 },
         { id := 2, topic := some "Economy", published_date := some 0 }]).2 →
        (∀ b ∈ runTrace ops (get_recommendations 86400 0 5
          [{ id := 1, topic := some "Economy", feedback := some "up", feedback_at := some 10 },
           { id := 2, topic := some "Economy", published_date := some 0 }]).2,
          b.id = ({ id := 2, topic := some "Economy", published_date := some 0 } : Article).id →
            b.recommended_at = some 86400)
        ∧ ∀ (n2 t2 : Int) (l2 : Nat) (a2 : Article),
            a2 ∈ (get_recommendations n2 t2 l2
              (runTrace ops (get_recommendations 86400 0 5
                [{ id := 1, topic := some "Economy", feedback := some "up", feedback_at := some 10 },
                 { id := 2, topic := some "Economy", published_date := some 0 }]).2)).1 →
            a2.id ≠ ({ id := 2, topic := some "Economy", published_date := some 0 } : Article).id) :=
  recommendations_marked_once 86400 0 5
    [{ id := 1, topic := some "Economy", feedback := some "up", feedback_at := some 10 },
     { id := 2, topic := some "Economy", published_date := some 0 }]
    { id := 2, topic := some "Economy", published_date := some 0 } (by decide)

/-- Claim C7: recording negative feedback sets `feedback = down`, the feedback
time, and `active = false` on every row of that id, and afterwards no
`get_recommendations` call along any well-formed operation sequence ever
returns an article with that id. -/
theorem thumbs_down_never_resurfaced (now : Int) (i : Nat) (db : List Article)
    (hex : ∃ b ∈ db, b.id = i) :
    (∀ b ∈ handle_thumbs_down now i db, b.id = i →
        b.feedback = some "down" ∧ b.feedback_at = some now ∧ b.active = false)
    ∧ ∀ ops, ValidTrace ops (handle_thumbs_down now i db) →
        ∀ (n2 t2 : Int) (l2 : Nat) (a : Article),
          a ∈ (get_recommendations n2 t2 l2
            (runTrace ops (handle_thumbs_down now i db))).1 → a.id ≠ i := by
  have hset : ∀ b ∈ handle_thumbs_down now i db, b.id = i →
      b.feedback = some "down" ∧ b.feedback_at = some now ∧ b.active = false := by
    intro b hb hbi
    rcases List.mem_map.mp hb with ⟨b0, hb0, rfl⟩
    by_cases hc : (b0.id == i) = true
    · simp [hc]
    · rw [if_neg hc] at hbi
      simp [hbi] at hc
  refine ⟨hset, ?_⟩
  intro ops hv n2 t2 l2 a ha heq
  have hstart_ex : ∃ b ∈ handle_thumbs_down now i db, b.id = i := by
    rcases hex with ⟨b, hb, hbi⟩
    refine ⟨_, List.mem_map_of_mem _ hb, ?_⟩
    by_cases hc : (b.id == i) = true <;> simp [hc, hbi]
  have hstart_all : ∀ b ∈ handle_thumbs_down now i db, b.id = i →
      b.active = false := fun b hb hbi => (hset b hb hbi).2.2
  have htr := inactive_runTrace ops (handle_thumbs_down now i db) i hv
    hstart_ex hstart_all
  have ha2 := mem_unseen (recs_sub_unseen ha)
  have hfalse := htr.2 a ha2.1 heq
  rw [ha2.2.1] at hfalse
  cases hfalse

/-- Witness for C7: thumbs-down on the only row of a one-row table sets the
feedback fields, deactivates it, and blocks every later recommendation. -/
theorem thumbs_down_never_resurfaced_witness :
    (∀ b ∈ handle_thumbs_down 100 5
        [{ id := 5, topic := some "Economy", published_date := some 0 }], b.id = 5 →
        b.feedback = some "down" ∧ b.feedback_at = some 100 ∧ b.active = false)
    ∧ ∀ ops, ValidTrace ops (handle_thumbs_down 100 5
        [{ id := 5, topic := some "Economy", published_date := some 0 }]) →
        ∀ (n2 t2 : Int) (l2 : Nat) (a : Article),
          a ∈ (get_recommendations n2 t2 l2
            (runTrace ops (handle_thumbs_down 100 5
              [{ id := 5, topic := some "Economy", published_date := some 0 }]))).1 →
          a.id ≠ 5 :=
  thumbs_down_never_resurfaced 100 5
    [{ id := 5, topic := some "Economy", published_date := some 0 }]
    (by decide)
